import Mathlib

/-!
Verification of the `ChoiceListEntry` widget (src/app/client/widgets/ChoiceListEntry.ts).

The widget edits the list of allowed choice values and their colors for a
Choice / Choice List column. We shallowly embed its data model and the
operations the specification talks about:

* `saveCandidate` — the `(values, optionsByName)` candidate computed by `_save`
  from the live token sequence and the pending text input;
* `clipboardToChoices` / `tokensToClipboard` — the clipboard codec;
* `renderViewRows` — the view-mode row computation of `buildDom`;
* `step` — the edit/view state machine (`_startEditing`, `_save`, `_cancel`,
  the listener on the values observable, and typing in the text input).

JavaScript maps (`ChoiceOptionsByName`) are embedded as association lists in
insertion order with unique keys; lodash `isEqual` on two maps (size equality
plus order-independent entry matching) is embedded as `mapEquiv`. The result
of `JSON.parse` is embedded as the inductive `Json`; an absent, empty or
unparseable `application/json` clipboard field is `Option.none`.
-/

/-- Color options of one choice: `IChoiceOptions` from ChoiceTextBox.ts,
with the two string-valued color fields used by ChoiceListEntry. -/
structure IChoiceOptions where
  fillColor : String
  textColor : String
deriving DecidableEq, Repr

/-- `class ChoiceItem implements IToken`: a token of the editing session,
a label plus optional color options. -/
structure ChoiceItem where
  label : String
  options : Option IChoiceOptions
deriving DecidableEq, Repr

/-- `ChoiceOptionsByName` — a JS `Map` from label to color options, embedded
as its entry list in insertion order (keys unique by `Map` semantics). The
source declares it as a type alias (`type ChoiceOptionsByName = Map<...>`). -/
abbrev ChoiceOptionsByName : Type := List (String × IChoiceOptions)

/-- `Map.prototype.get`: first (only) entry with the given key. -/
def mapGet (m : ChoiceOptionsByName) (k : String) : Option IChoiceOptions :=
  match m with
  | [] => none
  | (k', v) :: rest => if k' = k then some v else mapGet rest k

/-- `Map.prototype.set`: update the value in place if the key is present
(keeping its insertion position), otherwise append a new entry. -/
def mapSet (m : ChoiceOptionsByName) (k : String) (v : IChoiceOptions) : ChoiceOptionsByName :=
  match m with
  | [] => [(k, v)]
  | (k', v') :: rest => if k' = k then (k', v) :: rest else (k', v') :: mapSet rest k v

/-- lodash `isEqual` on two JS `Map`s: sizes are equal and the entries match
order-independently. (For maps with unique keys, as all JS maps are, the
unordered entry matching of lodash is exactly: every entry of `a` is found in
`b` under key lookup.) -/
def mapEquiv (a b : ChoiceOptionsByName) : Bool :=
  (List.length a == List.length b)
    && List.all a (fun e => mapGet b e.1 == some e.2)

/-- lodash `uniqBy(tokens, t => t.label)`, accumulator of labels already seen:
keeps the first occurrence of each label, in order. -/
def uniqByLabelAux (seen : List String) : List ChoiceItem → List ChoiceItem
  | [] => []
  | t :: ts =>
    if t.label ∈ seen then uniqByLabelAux seen ts
    else t :: uniqByLabelAux (t.label :: seen) ts

/-- lodash `uniqBy(tokens, t => t.label)`. -/
def uniqByLabel (ts : List ChoiceItem) : List ChoiceItem :=
  uniqByLabelAux [] ts

/-- `_save`, first step: the token sequence read from the session, with the
pending text input pushed as one extra token (no options) when non-empty
(`if (tokenInputVal !== '') tokens.push(new ChoiceItem(tokenInputVal))`). -/
def withPending (tokens : List ChoiceItem) (input : String) : List ChoiceItem :=
  if input ≠ "" then tokens ++ [⟨input, none⟩] else tokens

/-- `_save`, map construction: `for (const t of newTokens) if (t.options)
newOptions.set(t.label, {fillColor: ..., textColor: ...})`. -/
def buildOptions (ts : List ChoiceItem) : ChoiceOptionsByName :=
  List.foldl
    (fun m t =>
      match t.options with
      | some o => mapSet m t.label ⟨o.fillColor, o.textColor⟩
      | none => m)
    ([] : ChoiceOptionsByName) ts

/-- The candidate `(newValues, newOptions)` computed by `_save` from the
session tokens and the pending text input. -/
def saveCandidate (tokens : List ChoiceItem) (input : String) :
    List String × ChoiceOptionsByName :=
  let newTokens := uniqByLabel (withPending tokens input)
  (List.map (fun t => t.label) newTokens, buildOptions newTokens)

/-- Result of `JSON.parse` (absent / empty / unparseable payloads are embedded
as `Option.none` at the use site). -/
inductive Json where
  | null
  | bool (b : Bool)
  | num (n : Int)
  | str (s : String)
  | arr (elems : List Json)
  | obj (fields : List (String × Json))

/-- JS property access on a parsed object. -/
def jsonLookup (fields : List (String × Json)) (k : String) : Option Json :=
  match fields with
  | [] => none
  | (k', v) :: rest => if k' = k then some v else jsonLookup rest k

/-- `ChoiceOptionsType` checker: an object whose `textColor` and `fillColor`
are both strings. -/
def checkChoiceOptions (j : Json) : Bool :=
  match j with
  | Json.obj fields =>
    (match jsonLookup fields "textColor" with
     | some (Json.str _) => true
     | _ => false)
    && (match jsonLookup fields "fillColor" with
        | some (Json.str _) => true
        | _ => false)
  | _ => false

/-- `ChoiceItemType` checker (`ChoiceItemChecker.test`): an object whose
`label` is a string and whose `options`, when present, satisfies
`ChoiceOptionsType`. Extra properties are allowed (non-strict check). -/
def checkChoiceItem (j : Json) : Bool :=
  match j with
  | Json.obj fields =>
    (match jsonLookup fields "label" with
     | some (Json.str _) => true
     | _ => false)
    && (match jsonLookup fields "options" with
        | none => true
        | some v => checkChoiceOptions v)
  | _ => false

/-- String content of a parsed property known to be a string. -/
def jsonStringOrEmpty (v : Option Json) : String :=
  match v with
  | some (Json.str s) => s
  | _ => ""

/-- View of a validated parsed object as the `ChoiceItem` it denotes (the JS
code returns the parsed objects themselves; this projection extracts the
`label` and `options` properties that make up a `ChoiceItem`). -/
def jsonToChoiceItem (j : Json) : ChoiceItem :=
  match j with
  | Json.obj fields =>
    ⟨jsonStringOrEmpty (jsonLookup fields "label"),
     match jsonLookup fields "options" with
     | some (Json.obj ofields) =>
       some ⟨jsonStringOrEmpty (jsonLookup ofields "fillColor"),
             jsonStringOrEmpty (jsonLookup ofields "textColor")⟩
     | _ => none⟩
  | _ => ⟨"", none⟩

/-- JS `text.split('\n')`, structurally recursive over the characters:
every newline is a boundary, so `""` gives `[""]` and a trailing newline
gives a final empty line — exactly `String.prototype.split`. -/
def splitNewlinesAux : List Char → List Char → List String
  | [], acc => [String.mk (List.reverse acc)]
  | c :: cs, acc =>
    if c = '\n' then String.mk (List.reverse acc) :: splitNewlinesAux cs []
    else splitNewlinesAux cs (c :: acc)

/-- JS `text.split('\n')`. -/
def splitNewlines (text : String) : List String :=
  splitNewlinesAux text.data []

/-- `clipboardToChoices`: prefer the structured `application/json` field when
it parses to an array all of whose elements pass `ChoiceItemChecker.test`;
otherwise fall back to the non-empty `text/plain` field split on newlines;
otherwise return the empty list. `maybeTokens = none` embeds an absent, empty
or unparseable JSON field. -/
def clipboardToChoices (maybeTokens : Option Json) (maybeText : String) :
    List ChoiceItem :=
  match maybeTokens with
  | some (Json.arr ts) =>
    if List.all ts checkChoiceItem then List.map jsonToChoiceItem ts
    else if maybeText ≠ "" then List.map (fun l => ⟨l, none⟩) (splitNewlines maybeText)
    else []
  | _ =>
    if maybeText ≠ "" then List.map (fun l => ⟨l, none⟩) (splitNewlines maybeText)
    else []

/-- `JSON.stringify` of one `ChoiceItem` (parsed back): `options` is omitted
when `undefined`, serialized with its two color fields otherwise. -/
def choiceItemToJson (t : ChoiceItem) : Json :=
  match t.options with
  | some o =>
    Json.obj
      [("label", Json.str t.label),
       ("options", Json.obj [("fillColor", Json.str o.fillColor), ("textColor", Json.str o.textColor)])]
  | none => Json.obj [("label", Json.str t.label)]

/-- `tokensToClipboard`: the `application/json` field (`JSON.stringify(tokens)`,
given here as its parse result) and the `text/plain` field (labels joined by
newline). -/
def tokensToClipboard (tokens : List ChoiceItem) : Option Json × String :=
  (some (Json.arr (List.map choiceItemToJson tokens)),
   String.intercalate "\n" (List.map (fun t => t.label) tokens))

/-- One row of the inactive (view-mode) list: the informational
"no choices configured" row, a value row, or the "+N more" summary row
(N as JS number arithmetic, hence `Int`). -/
inductive ViewRow where
  | info
  | value (label : String)
  | more (n : Int)
deriving DecidableEq, Repr

/-- JS `values.slice(0, maxRows - 1)`: for `maxRows = 0` the end index `-1`
counts from the end of the array. -/
def sliceUpTo (maxRows : Nat) (values : List String) : List String :=
  if maxRows = 0 then List.take (values.length - 1) values
  else List.take (maxRows - 1) values

/-- The rows rendered by `buildDom` in view mode: `someValues` is the full
list when within the cap, else its first `maxRows - 1` elements; an
informational row when `someValues` is empty; one row per shown value; and a
`+N more` row when the cap is exceeded, with `N = values.length - (maxRows - 1)`.
(Row colors are presentation detail and not modelled.) -/
def renderViewRows (values : List String) (maxRows : Nat) : List ViewRow :=
  let someValues := if values.length ≤ maxRows then values else sliceUpTo maxRows values
  (if someValues.length = 0 then [ViewRow.info] else [])
    ++ List.map ViewRow.value someValues
    ++ (if maxRows < values.length
        then [ViewRow.more ((values.length : Int) - ((maxRows : Int) - 1))]
        else [])

/-- The live token field of an edit session: its ordered token sequence
(`tokensObs`) and the text currently typed in the input
(`getTextInputValue()`). -/
structure TokenFieldState where
  tokens : List ChoiceItem
  textInput : String
deriving DecidableEq, Repr

/-- State of a `ChoiceListEntry`: `_isEditing`, the `_tokenFieldHolder`
content, and the two externally held observables `_values` and
`_choiceOptionsByName`. -/
structure EditorState where
  isEditing : Bool
  tokenField : Option TokenFieldState
  values : List String
  choiceOptionsByName : ChoiceOptionsByName
deriving DecidableEq, Repr

/-- The discrete events the component reacts to. `startEditing` is a click on
the display area or the Edit button; `save` is the Save button or Enter;
`cancel` is the Cancel button or Escape; `setTextInput` is typing in the
token input; the two `external*Change` events are outside writes to the
`_values` / `_choiceOptionsByName` observables (e.g. an undo). -/
inductive Event where
  | startEditing
  | save
  | cancel
  | setTextInput (s : String)
  | externalValuesChange (newValues : List String)
  | externalOptionsChange (newOptions : ChoiceOptionsByName)
deriving DecidableEq, Repr

/-- A `ChoiceListEntry` as constructed, in view mode, over the given
observables. -/
def viewingState (v : List String) (o : ChoiceOptionsByName) : EditorState :=
  ⟨false, none, v, o⟩

/-- The initial token sequence of an edit session: one `ChoiceItem` per
current value, carrying that value's registered color options. -/
def initialTokens (v : List String) (o : ChoiceOptionsByName) : List ChoiceItem :=
  List.map (fun l => ⟨l, mapGet o l⟩) v

/-- One transition of the component, returning the new state and the argument
of the `_onSave` invocation this event caused, if any.

* `startEditing` (only available in view mode) creates the token field from
  the current values and options and enters edit mode.
* `save` runs `_save`: with no token field it does nothing; otherwise the
  pending input is pushed onto the session's token array (a JS in-place
  `push`, kept in the state), the candidate is computed, and either `_onSave`
  is invoked with it (structural difference, lodash `isEqual`) — edit mode
  itself is left unchanged, ending only when the host writes the values
  observable — or `_cancel` runs (structural equality).
* `cancel` (edit mode only) runs `_cancel`.
* `setTextInput` (edit mode only) is typing in the token input.
* `externalValuesChange` sets the `_values` observable; the listener added in
  the constructor runs `_cancel`.
* `externalOptionsChange` sets the `_choiceOptionsByName` observable; no
  listener is attached to it, so nothing else happens. -/
def step (s : EditorState) (e : Event) :
    EditorState × Option (List String × ChoiceOptionsByName) :=
  match e with
  | Event.startEditing =>
    if s.isEditing then (s, none)
    else
      (⟨true, some ⟨initialTokens s.values s.choiceOptionsByName, ""⟩,
        s.values, s.choiceOptionsByName⟩, none)
  | Event.save =>
    if s.isEditing then
      match s.tokenField with
      | none => (s, none)
      | some tf =>
        let tokens' := withPending tf.tokens tf.textInput
        let cand := saveCandidate tf.tokens tf.textInput
        if s.values = cand.1 ∧ mapEquiv s.choiceOptionsByName cand.2 = true then
          (⟨false, some ⟨tokens', tf.textInput⟩, s.values, s.choiceOptionsByName⟩, none)
        else
          (⟨true, some ⟨tokens', tf.textInput⟩, s.values, s.choiceOptionsByName⟩, some cand)
    else (s, none)
  | Event.cancel =>
    if s.isEditing then
      (⟨false, s.tokenField, s.values, s.choiceOptionsByName⟩, none)
    else (s, none)
  | Event.setTextInput str =>
    if s.isEditing then
      match s.tokenField with
      | none => (s, none)
      | some tf =>
        (⟨true, some ⟨tf.tokens, str⟩, s.values, s.choiceOptionsByName⟩, none)
    else (s, none)
  | Event.externalValuesChange v =>
    (⟨false, s.tokenField, v, s.choiceOptionsByName⟩, none)
  | Event.externalOptionsChange o =>
    (⟨s.isEditing, s.tokenField, s.values, o⟩, none)

/-- Number of `_onSave` invocations within one edit session: events are
consumed until the state first leaves edit mode (the end of the session);
invocations by later events belong to later sessions and are not counted. -/
def sessionInvocations (s : EditorState) : List Event → Nat
  | [] => 0
  | e :: es =>
    (if (step s e).2.isSome then 1 else 0)
      + (if (step s e).1.isEditing then sessionInvocations (step s e).1 es else 0)

def structuredUsable (maybeTokens : Option Json) : Bool :=
  match maybeTokens with
  | some (Json.arr ts) => List.all ts checkChoiceItem
  | _ => false

/-- Modelled from the claim's reference definition for view-mode rendering. -/
def referenceViewRows (values : List String) (maxRows : Nat) : List ViewRow :=
  if values.length = 0 then [ViewRow.info]
  else if values.length ≤ maxRows then List.map ViewRow.value values
  else
    List.map ViewRow.value (List.take (maxRows - 1) values)
      ++ [ViewRow.more ((values.length : Int) - ((maxRows : Int) - 1))]

def nextIsValuesChange : List Event → Bool
  | Event.externalValuesChange _ :: _ => true
  | _ => false

def responsive (s : EditorState) : List Event → Bool
  | [] => true
  | e :: es =>
    (if (step s e).2.isSome then nextIsValuesChange es else true)
      && responsive (step s e).1 es

/-- Modelled from the claim's words: deduplicate tokens by label — keep each
token and drop every later token with the same label. -/
def refDedup : List ChoiceItem → List ChoiceItem
  | [] => []
  | t :: ts => t :: refDedup (List.filter (fun u => u.label ≠ t.label) ts)
termination_by l => l.length
decreasing_by
  simp only [List.length_cons]
  exact Nat.lt_succ_of_le (List.length_filter_le _ _)

/-- Modelled from the claim's reference computation: append the non-empty
pending text as one extra token with no color options, deduplicate by label,
take the surviving labels in order, and map exactly the surviving tokens that
carry color options. -/
def referenceCandidate (tokens : List ChoiceItem) (pending : String) :
    List String × ChoiceOptionsByName :=
  let toks := tokens ++ (if pending = "" then [] else [⟨pending, none⟩])
  let surv := refDedup toks
  (List.map (fun t => t.label) surv,
   List.filterMap (fun t => Option.map (fun o => (t.label, o)) t.options) surv)

/-- Dedup-by-first-occurrence on labels, stated independently: keep each
label and remove it from the deduplicated remainder. -/
def dedupFirstOccurrence : List String → List String
  | [] => []
  | l :: ls => l :: List.filter (fun x => x ≠ l) (dedupFirstOccurrence ls)

theorem checkChoiceItem_choiceItemToJson (t : ChoiceItem) :
    checkChoiceItem (choiceItemToJson t) = true := by
  cases t with
  | mk label options =>
    cases options with
    | none => simp [choiceItemToJson, checkChoiceItem, jsonLookup]
    | some o => simp [choiceItemToJson, checkChoiceItem, checkChoiceOptions, jsonLookup]

theorem jsonToChoiceItem_choiceItemToJson (t : ChoiceItem) :
    jsonToChoiceItem (choiceItemToJson t) = t := by
  cases t with
  | mk label options =>
    cases options with
    | none => simp [choiceItemToJson, jsonToChoiceItem, jsonLookup, jsonStringOrEmpty]
    | some o => simp [choiceItemToJson, jsonToChoiceItem, jsonLookup, jsonStringOrEmpty]

/-- Claim C5: decoding the clipboard payload produced by encoding a token
list yields back the same token sequence — encode followed by decode is the
identity on token lists. -/
theorem clipboard_encode_decode_round_trip (tokens : List ChoiceItem) :
    clipboardToChoices (tokensToClipboard tokens).1 (tokensToClipboard tokens).2 = tokens := by
  have hall : List.all (List.map choiceItemToJson tokens) checkChoiceItem = true := by
    simp [List.all_eq_true]
    intro t ht
    exact checkChoiceItem_choiceItemToJson t
  simp [tokensToClipboard, clipboardToChoices, hall, Function.comp_def,
    jsonToChoiceItem_choiceItemToJson]

/-- Claim C3: a structured clipboard field that parses to a list whose
every element passes the ChoiceToken shape check decodes to exactly those
tokens, embedded color options preserved, regardless of the plain-text
field. -/
theorem structured_clipboard_decodes_to_token_list (ts : List Json) (text : String)
    (h : List.all ts checkChoiceItem = true) :
    clipboardToChoices (some (Json.arr ts)) text = List.map jsonToChoiceItem ts := by
  simp [clipboardToChoices, h]

/-- Claim C4: when the structured field is absent, invalid JSON, or fails
the token-list shape check, decode silently falls back to the (non-empty)
plain-text field: one token per newline-separated line, the line content as
label, no options — empty lines included as empty-label tokens. -/
theorem clipboard_falls_back_to_plaintext_lines (maybeTokens : Option Json) (text : String)
    (hu : structuredUsable maybeTokens = false) (ht : text ≠ "") :
    clipboardToChoices maybeTokens text
      = List.map (fun l => (⟨l, none⟩ : ChoiceItem)) (splitNewlines text) := by
  cases maybeTokens with
  | none => simp [clipboardToChoices, ht]
  | some j =>
    cases j with
    | arr ts => simp [structuredUsable] at hu; simp [clipboardToChoices, hu, ht]
    | null => simp [clipboardToChoices, ht]
    | bool b => simp [clipboardToChoices, ht]
    | num n => simp [clipboardToChoices, ht]
    | str s => simp [clipboardToChoices, ht]
    | obj f => simp [clipboardToChoices, ht]

/-- Claim C10: with no usable structured field and an empty plain-text
field, decode returns the empty token sequence — not a single token with an
empty label. -/
theorem empty_plaintext_decodes_to_no_tokens (maybeTokens : Option Json) (hu : structuredUsable maybeTokens = false) :
    clipboardToChoices maybeTokens "" = []
    ∧ clipboardToChoices maybeTokens "" ≠ [(⟨"", none⟩ : ChoiceItem)] := by
  have h : clipboardToChoices maybeTokens "" = [] := by
    cases maybeTokens with
    | none => simp [clipboardToChoices]
    | some j =>
      cases j with
      | arr ts => simp [structuredUsable] at hu; simp [clipboardToChoices, hu]
      | null => simp [clipboardToChoices]
      | bool b => simp [clipboardToChoices]
      | num n => simp [clipboardToChoices]
      | str s => simp [clipboardToChoices]
      | obj f => simp [clipboardToChoices]
  exact ⟨h, by simp [h]⟩

/-- Claim C7 (amended to row caps of at least 2): view-mode rendering
equals the reference definition — zero values give exactly one
informational row, up to the cap one row per value, and beyond the cap the
first maxRows - 1 values followed by one "+N more" row with
N = n - (maxRows - 1). -/
theorem view_rows_match_reference (values : List String) (maxRows : Nat) (h : 2 ≤ maxRows) :
    renderViewRows values maxRows = referenceViewRows values maxRows := by
  unfold renderViewRows referenceViewRows sliceUpTo
  by_cases h0 : values.length = 0
  · have hv : values = [] := List.length_eq_zero.mp h0
    subst hv
    simp
  · by_cases hle : values.length ≤ maxRows
    · simp [hle, h0, Nat.not_lt.mpr hle]
    · have hlt : maxRows < values.length := Nat.lt_of_not_le hle
      have hmr : maxRows ≠ 0 := by omega
      have hlen : (List.take (maxRows - 1) values).length = maxRows - 1 := by
        rw [List.length_take]
        omega
      have hne : (List.take (maxRows - 1) values).length ≠ 0 := by omega
      have hm1 : maxRows - 1 ≠ 0 := by omega
      simp [hle, hmr, hlt, hne, h0, hm1]

/-- Counterexample for claim C7: with row cap 1 and two values the code
renders an informational row (its condition is the displayed slice being
empty, not the value list) before the "+2 more" row, while the claimed
reference has zero value rows and the summary row only. -/
theorem view_rows_cap_one_mismatch :
    renderViewRows ["A", "B"] 1 ≠ referenceViewRows ["A", "B"] 1 := by decide

/-- Claim C6 (amended to changes of the values observable): an external
change to the underlying values observable while Editing is an implicit
cancel — the editor returns to Viewing, the save callback is not invoked,
and the editor writes neither observable (the values hold exactly the
externally supplied list, the options mapping is untouched). -/
theorem values_change_while_editing_cancels (s : EditorState) (v : List String) (h : s.isEditing = true) :
    step s (Event.externalValuesChange v)
      = (⟨false, s.tokenField, v, s.choiceOptionsByName⟩, none) := by
  rfl

/-- Counterexample for claim C6: an external change to the options
observable alone, in the Editing state, does not transition the editor to
Viewing — the constructor attaches a listener only to the values
observable. -/
theorem options_change_while_editing_keeps_editing :
    (step ⟨true, some ⟨[⟨"A", none⟩], ""⟩, ["A"], []⟩
      (Event.externalOptionsChange [("A", ⟨"#f00", "#000"⟩)])).1.isEditing = true
    ∧ (step ⟨true, some ⟨[⟨"A", none⟩], ""⟩, ["A"], []⟩
        (Event.externalOptionsChange [("A", ⟨"#f00", "#000"⟩)])).1
      ≠ ⟨false, some ⟨[⟨"A", none⟩], ""⟩, ["A"], [("A", ⟨"#f00", "#000"⟩)]⟩ := by
  constructor
  · rfl
  · decide

/-- Claim C8 (amended): the save callback is invoked at most once per
edit session provided every invocation is immediately followed by an
external change to the values observable — the host reaction the
implementation relies on to end the session; invocations are counted up to
the first return to Viewing. -/
theorem responsive_session_invokes_at_most_once (s : EditorState) (es : List Event)
    (hs : s.isEditing = true) (hr : responsive s es = true) :
    sessionInvocations s es ≤ 1 := by
  induction es generalizing s with
  | nil => simp [sessionInvocations]
  | cons e es ih =>
    rw [responsive] at hr
    simp only [Bool.and_eq_true] at hr
    obtain ⟨hr1, hr2⟩ := hr
    rw [sessionInvocations]
    by_cases ho : (step s e).2.isSome = true
    · have hnext : ∃ v es', es = Event.externalValuesChange v :: es' := by
        rw [if_pos ho] at hr1
        cases es with
        | nil => exact Bool.noConfusion hr1
        | cons e2 es' =>
          cases e2 with
          | externalValuesChange v => exact ⟨v, es', rfl⟩
          | startEditing => exact Bool.noConfusion hr1
          | save => exact Bool.noConfusion hr1
          | cancel => exact Bool.noConfusion hr1
          | setTextInput str => exact Bool.noConfusion hr1
          | externalOptionsChange o => exact Bool.noConfusion hr1
      obtain ⟨v, es', hes⟩ := hnext
      subst hes
      by_cases he : (step s e).1.isEditing = true
      · rw [if_pos ho, if_pos he]
        have hz : sessionInvocations (step s e).1 (Event.externalValuesChange v :: es') = 0 := by
          rw [sessionInvocations]
          simp [step]
        omega
      · rw [if_pos ho, if_neg he]
    · by_cases he : (step s e).1.isEditing = true
      · rw [if_neg ho, if_pos he]
        have hb := ih (step s e).1 he hr2
        omega
      · rw [if_neg ho, if_neg he]
        omega

/-- Counterexample for claim C8: within a single edit session (the state
never leaves Editing), typing pending text and triggering save twice
invokes the save callback twice — nothing in the save path itself ends the
session when the host does not write the values observable back. -/
theorem two_saves_invoke_twice_in_one_session :
    ((step (viewingState ["A"] []) Event.startEditing).1.isEditing = true)
    ∧ ¬ (sessionInvocations ((step (viewingState ["A"] []) Event.startEditing).1)
          [Event.setTextInput "B", Event.save, Event.save] ≤ 1) := by
  constructor
  · rfl
  · decide

theorem uniqByLabelAux_eq (ts : List ChoiceItem) : ∀ seen : List String,
    uniqByLabelAux seen ts = refDedup (List.filter (fun t => t.label ∉ seen) ts) := by
  induction ts with
  | nil => intro seen; simp [uniqByLabelAux, refDedup]
  | cons t ts ih =>
    intro seen
    by_cases h : t.label ∈ seen
    · rw [uniqByLabelAux, if_pos h, List.filter_cons_of_neg (by simpa using h), ih]
    · rw [uniqByLabelAux, if_neg h, List.filter_cons_of_pos (by simpa using h), refDedup,
        List.filter_filter, ih]
      have hf : List.filter (fun a => decide (a.label ≠ t.label) && decide (a.label ∉ seen)) ts
          = List.filter (fun u => decide (u.label ∉ t.label :: seen)) ts := by
        apply List.filter_congr
        intro u hu
        by_cases h1 : u.label = t.label <;> by_cases h2 : u.label ∈ seen <;> simp [h1, h2]
      rw [hf]

theorem uniqByLabel_eq_refDedup (ts : List ChoiceItem) :
    uniqByLabel ts = refDedup ts := by
  rw [uniqByLabel, uniqByLabelAux_eq]
  congr 1
  apply List.filter_eq_self.mpr
  intro u hu
  simp

theorem refDedup_subset (ts : List ChoiceItem) :
    ∀ u, u ∈ refDedup ts → u ∈ ts := by
  induction ts using refDedup.induct with
  | case1 => intro u hu; simp [refDedup] at hu
  | case2 t ts ih =>
    intro u hu
    rw [refDedup] at hu
    rcases List.mem_cons.mp hu with h | h
    · exact h ▸ List.mem_cons_self t ts
    · exact List.mem_cons_of_mem t (List.mem_of_mem_filter (ih u h))

theorem refDedup_labels_nodup (ts : List ChoiceItem) :
    (List.map (fun t => t.label) (refDedup ts)).Nodup := by
  induction ts using refDedup.induct with
  | case1 => simp [refDedup]
  | case2 t ts ih =>
    rw [refDedup]
    rw [List.map_cons, List.nodup_cons]
    refine ⟨?_, ih⟩
    intro hmem
    rcases List.mem_map.mp hmem with ⟨u, hu, hlab⟩
    have := List.of_mem_filter (refDedup_subset _ u hu)
    simp at this
    exact this hlab

theorem mapSet_append (m : ChoiceOptionsByName) (k : String) (v : IChoiceOptions)
    (h : ∀ e ∈ m, e.1 ≠ k) : mapSet m k v = m ++ [(k, v)] := by
  induction m with
  | nil => rfl
  | cons e m ih =>
    obtain ⟨k', v'⟩ := e
    rw [mapSet]
    rw [if_neg (h (k', v') (List.mem_cons_self (k', v') m))]
    rw [ih (fun e' he' => h e' (List.mem_cons_of_mem (k', v') he'))]
    rfl

theorem buildOptions_aux (ts : List ChoiceItem) :
    ∀ acc : ChoiceOptionsByName,
    (∀ t ∈ ts, ∀ e ∈ acc, e.1 ≠ t.label) →
    (List.map (fun t => t.label) ts).Nodup →
    List.foldl
      (fun m t =>
        match t.options with
        | some o => mapSet m t.label ⟨o.fillColor, o.textColor⟩
        | none => m)
      acc ts
    = acc ++ List.filterMap (fun t => Option.map (fun o => (t.label, o)) t.options) ts := by
  induction ts with
  | nil => intro acc hdisj hnd; simp
  | cons t ts ih =>
    intro acc hdisj hnd
    rw [List.map_cons, List.nodup_cons] at hnd
    rw [List.foldl_cons, List.filterMap_cons]
    cases hopt : t.options with
    | none =>
      simp only [hopt]
      exact ih acc (fun u hu e he => hdisj u (List.mem_cons_of_mem t hu) e he) hnd.2
    | some o =>
      simp only [hopt]
      have heta : (⟨o.fillColor, o.textColor⟩ : IChoiceOptions) = o := rfl
      rw [heta]
      rw [mapSet_append acc t.label o (hdisj t (List.mem_cons_self t ts))]
      rw [ih (acc ++ [(t.label, o)])]
      · rw [List.append_assoc]
        rfl
      · intro u hu e he
        rcases List.mem_append.mp he with h | h
        · exact hdisj u (List.mem_cons_of_mem t hu) e h
        · simp at h
          have he1 : e.1 = t.label := by rw [h]
          rw [he1]
          intro hc
          exact hnd.1 (List.mem_map.mpr ⟨u, hu, hc.symm⟩)
      · exact hnd.2

theorem buildOptions_eq_filterMap (ts : List ChoiceItem)
    (hnd : (List.map (fun t => t.label) ts).Nodup) :
    buildOptions ts
      = List.filterMap (fun t => Option.map (fun o => (t.label, o)) t.options) ts := by
  rw [buildOptions, buildOptions_aux ts [] (by intro t ht e he; simp at he) hnd]
  rfl

theorem withPending_eq_append (tokens : List ChoiceItem) (input : String) :
    withPending tokens input = tokens ++ (if input = "" then [] else [⟨input, none⟩]) := by
  rw [withPending]
  by_cases h : input = ""
  · simp [h]
  · simp [h]

/-- Claim C2: the candidate computed by save equals the reference
computation — non-empty pending text appended as one extra token with no
color options, tokens deduplicated by label, surviving labels in surviving
order as the new value list, and exactly one mapping entry per surviving
token that carries color options. -/
theorem save_candidate_matches_reference (tokens : List ChoiceItem) (input : String) :
    saveCandidate tokens input = referenceCandidate tokens input := by
  rw [saveCandidate, referenceCandidate]
  rw [withPending_eq_append, uniqByLabel_eq_refDedup]
  rw [buildOptions, buildOptions_aux _ [] (by intro t ht e he; simp at he)
    (refDedup_labels_nodup _)]
  rfl

theorem dedupFirstOccurrence_filter (p : String → Bool) (ls : List String) :
    dedupFirstOccurrence (List.filter p ls)
      = List.filter p (dedupFirstOccurrence ls) := by
  induction ls with
  | nil => rfl
  | cons l ls ih =>
    rw [dedupFirstOccurrence]
    by_cases h : p l = true
    · rw [List.filter_cons_of_pos h, dedupFirstOccurrence, ih,
        List.filter_cons_of_pos h, List.filter_filter, List.filter_filter]
      congr 1
      apply List.filter_congr
      intro x hx
      rw [Bool.and_comm]
    · rw [List.filter_cons_of_neg h, ih, List.filter_cons_of_neg h, List.filter_filter]
      apply List.filter_congr
      intro x hx
      by_cases hxl : x = l
      · rw [hxl]
        simp [h]
      · simp [hxl]

theorem map_label_filter (ts : List ChoiceItem) (k : String) :
    List.map (fun t => t.label) (List.filter (fun u => u.label ≠ k) ts)
      = List.filter (fun x => x ≠ k) (List.map (fun t => t.label) ts) := by
  induction ts with
  | nil => rfl
  | cons t ts ih =>
    by_cases h : t.label = k
    · rw [List.filter_cons_of_neg (by simp [h]), List.map_cons,
        List.filter_cons_of_neg (by simp [h]), ih]
    · rw [List.filter_cons_of_pos (by simp [h]), List.map_cons, List.map_cons,
        List.filter_cons_of_pos (by simp [h]), ih]

theorem refDedup_labels (ts : List ChoiceItem) :
    List.map (fun t => t.label) (refDedup ts)
      = dedupFirstOccurrence (List.map (fun t => t.label) ts) := by
  induction ts using refDedup.induct with
  | case1 => simp [refDedup, dedupFirstOccurrence]
  | case2 t ts ih =>
    rw [refDedup, List.map_cons, List.map_cons, dedupFirstOccurrence, ih,
      map_label_filter, dedupFirstOccurrence_filter]

theorem mem_dedupFirstOccurrence (xs : List String) (x : String) :
    x ∈ dedupFirstOccurrence xs ↔ x ∈ xs := by
  induction xs with
  | nil => simp [dedupFirstOccurrence]
  | cons l ls ih =>
    rw [dedupFirstOccurrence]
    constructor
    · intro h
      rcases List.mem_cons.mp h with h | h
      · exact h ▸ List.mem_cons_self x ls
      · exact List.mem_cons_of_mem l (ih.mp (List.mem_of_mem_filter h))
    · intro h
      rcases List.mem_cons.mp h with h | h
      · exact h ▸ List.mem_cons_self x _
      · by_cases hxl : x = l
        · exact hxl ▸ List.mem_cons_self x _
        · exact List.mem_cons_of_mem l
            (List.mem_filter.mpr ⟨ih.mpr h, by simpa using hxl⟩)

theorem dedupFirstOccurrence_nodup (xs : List String) :
    (dedupFirstOccurrence xs).Nodup := by
  induction xs with
  | nil => simp [dedupFirstOccurrence]
  | cons l ls ih =>
    rw [dedupFirstOccurrence, List.nodup_cons]
    constructor
    · intro h
      have := List.of_mem_filter h
      simp at this
    · exact List.Nodup.filter _ ih

theorem mapGet_nil (k : String) : mapGet [] k = none := rfl

theorem mapGet_cons (k' : String) (v' : IChoiceOptions) (rest : ChoiceOptionsByName)
    (k : String) :
    mapGet ((k', v') :: rest) k = if k' = k then some v' else mapGet rest k := rfl

theorem mapGet_filterMap_none (xs : List ChoiceItem) (l : String)
    (h : l ∉ List.map (fun t => t.label) xs) :
    mapGet (List.filterMap (fun t => Option.map (fun o => (t.label, o)) t.options) xs) l
      = none := by
  induction xs with
  | nil => rfl
  | cons t ts ih =>
    rw [List.map_cons, List.mem_cons, not_or] at h
    rw [List.filterMap_cons]
    cases hopt : t.options with
    | none => exact ih h.2
    | some o =>
      rw [Option.map_some', mapGet_cons, if_neg (fun hc => h.1 hc.symm)]
      exact ih h.2

theorem find?_filter_label (ts : List ChoiceItem) (k l : String) (h : l ≠ k) :
    List.find? (fun t => t.label == l) (List.filter (fun u => u.label ≠ k) ts)
      = List.find? (fun t => t.label == l) ts := by
  induction ts with
  | nil => rfl
  | cons t ts ih =>
    by_cases hk : t.label = k
    · rw [List.filter_cons_of_neg (by simp [hk]), ih,
        List.find?_cons_of_neg _ (by simp [hk]; exact fun hc => h hc.symm)]
    · rw [List.filter_cons_of_pos (by simp [hk])]
      by_cases hl : t.label = l
      · rw [List.find?_cons_of_pos _ (by simp [hl]),
          List.find?_cons_of_pos _ (by simp [hl])]
      · rw [List.find?_cons_of_neg _ (by simp [hl]),
          List.find?_cons_of_neg _ (by simp [hl]), ih]

theorem mapGet_refDedup_filterMap (ts : List ChoiceItem) (l : String) :
    mapGet
      (List.filterMap (fun t => Option.map (fun o => (t.label, o)) t.options) (refDedup ts)) l
      = Option.bind (List.find? (fun t => t.label == l) ts) (fun t => t.options) := by
  induction ts using refDedup.induct with
  | case1 => rw [refDedup]; rfl
  | case2 t ts ih =>
    rw [refDedup, List.filterMap_cons]
    by_cases hl : t.label = l
    · rw [List.find?_cons_of_pos _ (by simp [hl])]
      rw [show Option.bind (some t) (fun t => t.options) = t.options from rfl]
      cases hopt : t.options with
      | some o =>
        rw [Option.map_some', mapGet_cons, if_pos hl]
      | none =>
        show mapGet
          (List.filterMap (fun t => Option.map (fun o => (t.label, o)) t.options)
            (refDedup (List.filter (fun u => u.label ≠ t.label) ts))) l = none
        apply mapGet_filterMap_none
        intro hmem
        rcases List.mem_map.mp hmem with ⟨u, hu, hlab⟩
        have hne := List.of_mem_filter (refDedup_subset _ u hu)
        simp at hne
        exact hne (hlab.trans hl.symm)
    · rw [List.find?_cons_of_neg _ (by simp [hl])]
      have hrest := ih
      rw [find?_filter_label ts t.label l (fun hc => hl hc.symm)] at hrest
      cases hopt : t.options with
      | none => rw [Option.map_none']; exact hrest
      | some o =>
        rw [Option.map_some', mapGet_cons, if_neg hl]
        exact hrest

/-- Claim C9: save-time deduplication keeps the first occurrence of each
label in session order — every present label survives exactly once, the
value list is the first-occurrence dedup of the session labels, and the
options retained for a label are those of its first-occurring token, later
duplicates' options being discarded. -/
theorem save_dedup_keeps_first_occurrence (tokens : List ChoiceItem) (input : String) (l : String)
    (h : l ∈ List.map (fun t => t.label) (withPending tokens input)) :
    ((saveCandidate tokens input).1).count l = 1
    ∧ (saveCandidate tokens input).1
        = dedupFirstOccurrence (List.map (fun t => t.label) (withPending tokens input))
    ∧ mapGet (saveCandidate tokens input).2 l
        = Option.bind (List.find? (fun t => t.label == l) (withPending tokens input))
            (fun t => t.options) := by
  have hvals : (saveCandidate tokens input).1
      = dedupFirstOccurrence (List.map (fun t => t.label) (withPending tokens input)) := by
    simp only [saveCandidate]
    rw [uniqByLabel_eq_refDedup, refDedup_labels]
  refine ⟨?_, hvals, ?_⟩
  · rw [hvals]
    exact List.count_eq_one_of_mem (dedupFirstOccurrence_nodup _)
      ((mem_dedupFirstOccurrence _ _).mpr h)
  · simp only [saveCandidate]
    rw [uniqByLabel_eq_refDedup, buildOptions_eq_filterMap _ (refDedup_labels_nodup _),
      mapGet_refDedup_filterMap]

theorem uniqByLabelAux_of_nodup (ts : List ChoiceItem) : ∀ seen : List String,
    (∀ t ∈ ts, t.label ∉ seen) → (List.map (fun t => t.label) ts).Nodup →
    uniqByLabelAux seen ts = ts := by
  induction ts with
  | nil => intro seen h1 h2; rfl
  | cons t ts ih =>
    intro seen hseen hnd
    rw [List.map_cons, List.nodup_cons] at hnd
    rw [uniqByLabelAux, if_neg (hseen t (List.mem_cons_self t ts))]
    congr 1
    apply ih
    · intro u hu hmem
      rcases List.mem_cons.mp hmem with h | h
      · exact hnd.1 (List.mem_map.mpr ⟨u, hu, h⟩)
      · exact hseen u (List.mem_cons_of_mem t hu) h
    · exact hnd.2

theorem uniqByLabel_of_nodup (ts : List ChoiceItem)
    (hnd : (List.map (fun t => t.label) ts).Nodup) : uniqByLabel ts = ts := by
  rw [uniqByLabel]
  exact uniqByLabelAux_of_nodup ts [] (by intro t ht h; simp at h) hnd

theorem initialTokens_labels (v : List String) (o : ChoiceOptionsByName) :
    List.map (fun t => t.label) (initialTokens v o) = v := by
  simp [initialTokens, List.map_map, Function.comp_def]

theorem mapGet_isSome_iff (o : ChoiceOptionsByName) (l : String) :
    (mapGet o l).isSome = true ↔ l ∈ List.map Prod.fst o := by
  induction o with
  | nil => simp [mapGet]
  | cons e o ih =>
    obtain ⟨k', v'⟩ := e
    rw [mapGet_cons, List.map_cons]
    by_cases h : k' = l
    · simp [h]
    · rw [if_neg h, List.mem_cons]
      simp only [ih]
      constructor
      · intro hmem
        exact Or.inr hmem
      · intro hmem
        rcases hmem with hmem | hmem
        · exact absurd hmem.symm h
        · exact hmem

theorem mapGet_of_mem (o : ChoiceOptionsByName) (k : String) (w : IChoiceOptions)
    (hok : (List.map Prod.fst o).Nodup) (hmem : (k, w) ∈ o) : mapGet o k = some w := by
  induction o with
  | nil => simp at hmem
  | cons e o ih =>
    obtain ⟨k', v'⟩ := e
    rw [List.map_cons, List.nodup_cons] at hok
    rw [mapGet_cons]
    rcases List.mem_cons.mp hmem with h | h
    · obtain ⟨h1, h2⟩ := Prod.mk.injEq k w k' v' ▸ h
      rw [if_pos h1.symm, h2]
    · by_cases hk : k' = k
      · exfalso
        apply hok.1
        rw [hk]
        exact List.mem_map.mpr ⟨(k, w), h, rfl⟩
      · rw [if_neg hk]
        exact ih hok.2 h

theorem mapGet_filterMap_initial (o : ChoiceOptionsByName) (v : List String)
    (hv : v.Nodup) (k : String) :
    mapGet (List.filterMap (fun x => Option.map (fun w => (x, w)) (mapGet o x)) v) k
      = if k ∈ v then mapGet o k else none := by
  induction v with
  | nil => simp [mapGet]
  | cons x v ih =>
    rw [List.nodup_cons] at hv
    rw [List.filterMap_cons]
    by_cases hk : x = k
    · subst hk
      cases hx : mapGet o x with
      | some w =>
        rw [Option.map_some', mapGet_cons, if_pos rfl, if_pos (List.mem_cons_self x v)]
      | none =>
        rw [Option.map_none', ih hv.2, if_neg hv.1, if_pos (List.mem_cons_self x v)]
    · have hiff : k ∈ x :: v ↔ k ∈ v := by
        rw [List.mem_cons]
        constructor
        · intro hc
          rcases hc with hc | hc
          · exact absurd hc.symm hk
          · exact hc
        · exact Or.inr
      cases hx : mapGet o x with
      | some w =>
        rw [Option.map_some', mapGet_cons, if_neg hk, ih hv.2]
        exact (if_congr hiff rfl rfl).symm
      | none =>
        rw [Option.map_none', ih hv.2]
        exact (if_congr hiff rfl rfl).symm

theorem length_filterMap_isSome (v : List String)
    (f : String → Option (String × IChoiceOptions)) :
    (List.filterMap f v).length = (List.filter (fun x => (f x).isSome) v).length := by
  induction v with
  | nil => rfl
  | cons x v ih =>
    rw [List.filterMap_cons]
    cases hx : f x with
    | none => rw [List.filter_cons_of_neg (by simp [hx]), ih]
    | some e => rw [List.filter_cons_of_pos (by simp [hx]), List.length_cons, ih, List.length_cons]

theorem length_filterMap_initial (o : ChoiceOptionsByName) (v : List String)
    (hv : v.Nodup) (hok : (List.map Prod.fst o).Nodup) (hsub : ∀ e ∈ o, e.1 ∈ v) :
    (List.filterMap (fun x => Option.map (fun w => (x, w)) (mapGet o x)) v).length
      = o.length := by
  rw [length_filterMap_isSome]
  have hpred : List.filter (fun x => (Option.map (fun w => (x, w)) (mapGet o x)).isSome) v
      = List.filter (fun x => x ∈ List.map Prod.fst o) v := by
    apply List.filter_congr
    intro x hx
    cases h : mapGet o x with
    | none =>
      have hne : ¬ x ∈ List.map Prod.fst o := by
        rw [← mapGet_isSome_iff, h]
        simp
      simp [h, hne]
    | some w =>
      have hmem : x ∈ List.map Prod.fst o := by
        rw [← mapGet_isSome_iff, h]
        rfl
      simp [h, hmem]
  rw [hpred]
  have hperm : (List.filter (fun x => x ∈ List.map Prod.fst o) v).Perm (List.map Prod.fst o) := by
    apply List.perm_of_nodup_nodup_toFinset_eq (hv.filter _) hok
    apply Finset.ext
    intro a
    simp only [List.mem_toFinset, List.mem_filter, decide_eq_true_eq]
    constructor
    · intro ha
      exact ha.2
    · intro ha
      refine ⟨?_, ha⟩
      rcases List.mem_map.mp ha with ⟨e, he, hfst⟩
      exact hfst ▸ hsub e he
  rw [hperm.length_eq, List.length_map]

theorem mapEquiv_initial (v : List String) (o : ChoiceOptionsByName)
    (hv : v.Nodup) (hok : (List.map Prod.fst o).Nodup) (hsub : ∀ e ∈ o, e.1 ∈ v) :
    mapEquiv o (List.filterMap (fun x => Option.map (fun w => (x, w)) (mapGet o x)) v)
      = true := by
  rw [mapEquiv, Bool.and_eq_true]
  constructor
  · rw [beq_iff_eq, length_filterMap_initial o v hv hok hsub]
  · rw [List.all_eq_true]
    intro e he
    rw [beq_iff_eq, mapGet_filterMap_initial o v hv, if_pos (hsub e he)]
    exact mapGet_of_mem o e.1 e.2 hok he

theorem saveCandidate_initial_fst (v : List String) (o : ChoiceOptionsByName)
    (hv : v.Nodup) : (saveCandidate (initialTokens v o) "").1 = v := by
  simp only [saveCandidate]
  have hwp : withPending (initialTokens v o) "" = initialTokens v o := by simp [withPending]
  rw [hwp, uniqByLabel_of_nodup _ (by rw [initialTokens_labels]; exact hv), initialTokens_labels]

theorem saveCandidate_initial_snd (v : List String) (o : ChoiceOptionsByName)
    (hv : v.Nodup) :
    (saveCandidate (initialTokens v o) "").2
      = List.filterMap (fun x => Option.map (fun w => (x, w)) (mapGet o x)) v := by
  simp only [saveCandidate]
  have hwp : withPending (initialTokens v o) "" = initialTokens v o := by simp [withPending]
  rw [hwp, uniqByLabel_of_nodup _ (by rw [initialTokens_labels]; exact hv),
    buildOptions_eq_filterMap _ (by rw [initialTokens_labels]; exact hv),
    initialTokens, List.filterMap_map]
  rfl

/-- Claim C1: when save is triggered in an edit session, the editor invokes
the save callback, and then with the computed candidate, exactly when the
candidate differs structurally from the externally held pair (label list
compared in order, mapping compared order-independently); when they are
equal it transitions to Viewing without invoking the callback. In
particular, under the data-model invariants (held values pairwise distinct,
every options key among the held values), entering edit mode and
immediately saving invokes nothing and returns to Viewing. -/
theorem save_invokes_callback_iff_candidate_differs (s : EditorState) (tf : TokenFieldState)
    (he : s.isEditing = true) (htf : s.tokenField = some tf)
    (v : List String) (o : ChoiceOptionsByName)
    (hv : v.Nodup) (hok : (List.map Prod.fst o).Nodup) (hsub : ∀ e ∈ o, e.1 ∈ v) :
    (¬ (step s Event.save).2 = none ↔
      ¬ (s.values = (saveCandidate tf.tokens tf.textInput).1
          ∧ mapEquiv s.choiceOptionsByName (saveCandidate tf.tokens tf.textInput).2 = true))
    ∧ ((step s Event.save).2 = none
        ∨ (step s Event.save).2 = some (saveCandidate tf.tokens tf.textInput))
    ∧ ((s.values = (saveCandidate tf.tokens tf.textInput).1
        ∧ mapEquiv s.choiceOptionsByName (saveCandidate tf.tokens tf.textInput).2 = true) →
        ((step s Event.save).1.isEditing = false ∧ (step s Event.save).2 = none))
    ∧ (step (step (viewingState v o) Event.startEditing).1 Event.save).2 = none
    ∧ (step (step (viewingState v o) Event.startEditing).1 Event.save).1.isEditing = false := by
  obtain ⟨ie, tfo, vals, opts⟩ := s
  simp only at he htf
  subst he
  subst htf
  have hgen :
      (¬ (step ⟨true, some tf, vals, opts⟩ Event.save).2 = none ↔
        ¬ (vals = (saveCandidate tf.tokens tf.textInput).1
            ∧ mapEquiv opts (saveCandidate tf.tokens tf.textInput).2 = true))
      ∧ ((step ⟨true, some tf, vals, opts⟩ Event.save).2 = none
          ∨ (step ⟨true, some tf, vals, opts⟩ Event.save).2
              = some (saveCandidate tf.tokens tf.textInput))
      ∧ ((vals = (saveCandidate tf.tokens tf.textInput).1
          ∧ mapEquiv opts (saveCandidate tf.tokens tf.textInput).2 = true) →
          ((step ⟨true, some tf, vals, opts⟩ Event.save).1.isEditing = false
            ∧ (step ⟨true, some tf, vals, opts⟩ Event.save).2 = none)) := by
    by_cases hcond : vals = (saveCandidate tf.tokens tf.textInput).1
        ∧ mapEquiv opts (saveCandidate tf.tokens tf.textInput).2 = true
    · simp [step, hcond]
    · simp [step, hcond]
  refine ⟨hgen.1, hgen.2.1, hgen.2.2, ?_, ?_⟩
  · have hstart : (step (viewingState v o) Event.startEditing).1
        = ⟨true, some ⟨initialTokens v o, ""⟩, v, o⟩ := by
      simp [step, viewingState]
    rw [hstart]
    have hcond : v = (saveCandidate (initialTokens v o) "").1
        ∧ mapEquiv o (saveCandidate (initialTokens v o) "").2 = true := by
      constructor
      · rw [saveCandidate_initial_fst v o hv]
      · rw [saveCandidate_initial_snd v o hv]
        exact mapEquiv_initial v o hv hok hsub
    simp only [step]
    rw [if_pos hcond]
    simp
  · have hstart : (step (viewingState v o) Event.startEditing).1
        = ⟨true, some ⟨initialTokens v o, ""⟩, v, o⟩ := by
      simp [step, viewingState]
    rw [hstart]
    have hcond : v = (saveCandidate (initialTokens v o) "").1
        ∧ mapEquiv o (saveCandidate (initialTokens v o) "").2 = true := by
      constructor
      · rw [saveCandidate_initial_fst v o hv]
      · rw [saveCandidate_initial_snd v o hv]
        exact mapEquiv_initial v o hv hok hsub
    simp only [step]
    rw [if_pos hcond]
    simp

/-- Witness for claim C1 at the spec example: values ["A","B"] and empty
options; entering edit mode and saving immediately does not invoke the
callback and returns to Viewing. -/
theorem save_invokes_callback_iff_candidate_differs_witness :
    (["A", "B"] : List String).Nodup
    ∧ (step (step (viewingState ["A", "B"] []) Event.startEditing).1 Event.save).2 = none
    ∧ (step (step (viewingState ["A", "B"] []) Event.startEditing).1 Event.save).1.isEditing
        = false := by
  have h := save_invokes_callback_iff_candidate_differs ⟨true, some ⟨[⟨"A", none⟩, ⟨"B", none⟩], ""⟩, ["A", "B"], []⟩
    ⟨[⟨"A", none⟩, ⟨"B", none⟩], ""⟩ rfl rfl ["A", "B"] [] (by decide) (by decide) (by decide)
  exact ⟨by decide, h.2.2.2.1, h.2.2.2.2⟩

/-- Witness for claim C3 at the spec example payload, with an unrelated
plain-text field. -/
theorem structured_clipboard_decodes_to_token_list_witness :
    clipboardToChoices
      (some (Json.arr [Json.obj [("label", Json.str "X"),
        ("options", Json.obj [("fillColor", Json.str "#fff"), ("textColor", Json.str "#000")])]]))
      "some unrelated plain text"
      = [⟨"X", some ⟨"#fff", "#000"⟩⟩] :=
  (structured_clipboard_decodes_to_token_list [Json.obj [("label", Json.str "X"),
    ("options", Json.obj [("fillColor", Json.str "#fff"), ("textColor", Json.str "#000")])]]
    "some unrelated plain text" (by decide)).trans (by decide)

/-- Witness for claim C4: absent structured field and plain text holding
three newline-separated labels. -/
theorem clipboard_falls_back_to_plaintext_lines_witness :
    clipboardToChoices none "X\nY\nZ" = [⟨"X", none⟩, ⟨"Y", none⟩, ⟨"Z", none⟩] :=
  (clipboard_falls_back_to_plaintext_lines none "X\nY\nZ" (by decide) (by decide)).trans (by decide)

/-- Witness for claim C6 at a concrete editing state. -/
theorem values_change_while_editing_cancels_witness :
    step (⟨true, some ⟨[⟨"A", none⟩], ""⟩, ["A"], []⟩ : EditorState)
        (Event.externalValuesChange ["B"])
      = (⟨false, some ⟨[⟨"A", none⟩], ""⟩, ["B"], []⟩, none) :=
  values_change_while_editing_cancels ⟨true, some ⟨[⟨"A", none⟩], ""⟩, ["A"], []⟩ ["B"] rfl

/-- Witness for claim C7 at the spec example: seven values and cap 6
render five value rows and a "+2 more" row. -/
theorem view_rows_match_reference_witness :
    renderViewRows ["A", "B", "C", "D", "E", "F", "G"] 6
      = referenceViewRows ["A", "B", "C", "D", "E", "F", "G"] 6
    ∧ renderViewRows ["A", "B", "C", "D", "E", "F", "G"] 6
      = [ViewRow.value "A", ViewRow.value "B", ViewRow.value "C", ViewRow.value "D",
         ViewRow.value "E", ViewRow.more 2] :=
  ⟨view_rows_match_reference ["A", "B", "C", "D", "E", "F", "G"] 6 (by decide), by decide⟩

/-- Witness for claim C8: a session that types, saves once and receives
the host's values update invokes the callback exactly once. -/
theorem responsive_session_invokes_at_most_once_witness :
    responsive ((step (viewingState ["A"] []) Event.startEditing).1)
      [Event.setTextInput "B", Event.save, Event.externalValuesChange ["A", "B"]] = true
    ∧ sessionInvocations ((step (viewingState ["A"] []) Event.startEditing).1)
        [Event.setTextInput "B", Event.save, Event.externalValuesChange ["A", "B"]] ≤ 1 :=
  ⟨by decide,
   responsive_session_invokes_at_most_once ((step (viewingState ["A"] []) Event.startEditing).1)
     [Event.setTextInput "B", Event.save, Event.externalValuesChange ["A", "B"]]
     (by decide) (by decide)⟩

/-- Witness for claim C9 at the spec example: an optionless "A" followed
by an "A" with color options saves a single "A" whose mapping entry is
absent (the first occurrence carried no options). -/
theorem save_dedup_keeps_first_occurrence_witness :
    ((saveCandidate [⟨"A", none⟩, ⟨"A", some ⟨"#f00", "#000"⟩⟩] "").1).count "A" = 1
    ∧ mapGet (saveCandidate [⟨"A", none⟩, ⟨"A", some ⟨"#f00", "#000"⟩⟩] "").2 "A" = none := by
  have h := save_dedup_keeps_first_occurrence [⟨"A", none⟩, ⟨"A", some ⟨"#f00", "#000"⟩⟩] "" "A" (by decide)
  exact ⟨h.1, h.2.2.trans (by decide)⟩

/-- Witness for claim C10 with an absent structured field. -/
theorem empty_plaintext_decodes_to_no_tokens_witness :
    clipboardToChoices none "" = []
    ∧ clipboardToChoices none "" ≠ [(⟨"", none⟩ : ChoiceItem)] :=
  empty_plaintext_decodes_to_no_tokens none rfl
